import Mathlib

/-!
Verification of the index-splitting / isolated-scan orchestrator of
trivy-plugin-zarf against its design document.  The definitions below are a
shallow embedding of `cmd/scan.go`: pure helpers become Lean functions, the
scan loop becomes explicit recursion over the manifest list with the external
scanner modelled as an environment function, and Go panics / Go `error`
results become `Option`.
-/

namespace TrivyZarf

/-- One entry of an OCI image index (`specv1.Descriptor`): media type, digest
string, size and the optional annotations map (`none` models a nil Go map). -/
structure Descriptor where
  mediaType : String
  digest : String
  size : Int
  annotations : Option (List (String × String))
deriving DecidableEq

/-- An OCI image index (`specv1.Index`): schema version and manifest list. -/
structure Index where
  schemaVersion : Int
  manifests : List Descriptor
deriving DecidableEq

/-- The single-entry index built in `scanOCIImage` (scan.go lines 204-209):
the schema version is the literal constant 2 and the manifest list holds
exactly the one descriptor. -/
def tempIndexFor (descriptor : Descriptor) : Index :=
  { schemaVersion := 2, manifests := [descriptor] }

/-- Go map lookup over the annotations list: first matching key wins. -/
def lookupGo (key : String) : List (String × String) → Option String
  | [] => none
  | (k, v) :: rest => if k = key then some v else lookupGo key rest

/-- Annotation lookup through the nil check of `getImageNameFromDescriptor`:
a nil map (`none`) never yields a value. -/
def annotationLookup (d : Descriptor) (key : String) : Option String :=
  match d.annotations with
  | none => none
  | some ann => lookupGo key ann

def refNameKey : String := "org.opencontainers.image.ref.name"

def baseNameKey : String := "org.opencontainers.image.base.name"

/-- `strings.Split` for a one-character separator, on the character list of
the string: splits at every separator, keeping empty fields. -/
def goSplitChar (sep : Char) : List Char → List (List Char)
  | [] => [[]]
  | c :: rest =>
    if c = sep then [] :: goSplitChar sep rest
    else
      match goSplitChar sep rest with
      | [] => [[c]]
      | h :: t => (c :: h) :: t

/-- The digest fallback of `getImageNameFromDescriptor` (scan.go lines
353-362).  `parts[1][:16]` panics in Go when `parts[1]` is shorter than 16
bytes; the panic is modelled as `none`. -/
def digestFallback (digest : String) : Option String :=
  if digest.length > 20 then
    match goSplitChar ':' digest.data with
    | _ :: p1 :: _ =>
      if 16 ≤ p1.length then some (String.mk (p1.take 16)) else none
    | _ => some digest
  else some digest

/-- `getImageNameFromDescriptor` (scan.go lines 339-363): annotation
`ref.name` first, then `base.name`, then the digest fallback.  `none` models
the Go panic inside the fallback. -/
def getImageNameFromDescriptor (d : Descriptor) : Option String :=
  match d.annotations with
  | some ann =>
    match lookupGo refNameKey ann with
    | some name => some name
    | none =>
      match lookupGo baseNameKey ann with
      | some name => some name
      | none => digestFallback d.digest
  | none => digestFallback d.digest

/-- The underscore character used as the replacement in the sanitizer. -/
def und : Char := Char.ofNat 95

/-- The replacer of `sanitizeFilename` (scan.go lines 378-399): each listed
character maps to an underscore, every other character is kept.  The
conditions appear in the order of the `strings.NewReplacer` pairs. -/
def applyReplacer (c : Char) : Char :=
  if c = Char.ofNat 47 then und
  else if c = Char.ofNat 58 then und
  else if c = Char.ofNat 32 then und
  else if c = Char.ofNat 46 then und
  else if c = Char.ofNat 44 then und
  else if c = Char.ofNat 64 then und
  else if c = Char.ofNat 38 then und
  else if c = Char.ofNat 61 then und
  else if c = Char.ofNat 63 then und
  else if c = Char.ofNat 35 then und
  else if c = Char.ofNat 37 then und
  else if c = Char.ofNat 42 then und
  else if c = Char.ofNat 34 then und
  else if c = Char.ofNat 39 then und
  else if c = Char.ofNat 96 then und
  else if c = Char.ofNat 60 then und
  else if c = Char.ofNat 62 then und
  else if c = Char.ofNat 124 then und
  else if c = Char.ofNat 92 then und
  else if c = Char.ofNat 33 then und
  else c

/-- The fixed unsafe character set of the design document: path separators,
colon, space, period, comma, and the remaining punctuation list. -/
def unsafeChars : List Char :=
  [Char.ofNat 47, Char.ofNat 58, Char.ofNat 32, Char.ofNat 46, Char.ofNat 44,
   Char.ofNat 64, Char.ofNat 38, Char.ofNat 61, Char.ofNat 63, Char.ofNat 35,
   Char.ofNat 37, Char.ofNat 42, Char.ofNat 34, Char.ofNat 39, Char.ofNat 96,
   Char.ofNat 60, Char.ofNat 62, Char.ofNat 124, Char.ofNat 92, Char.ofNat 33]

/-- `replacer.Replace` applied to the whole name. -/
def replaceUnsafe (l : List Char) : List Char := l.map applyReplacer

/-- `strings.Contains(s, "__")`: an adjacent pair of underscores exists. -/
def hasDoubleUnderscore : List Char → Bool
  | c :: d :: rest => (c = und && d = und) || hasDoubleUnderscore (d :: rest)
  | _ => false

/-- One pass of `strings.ReplaceAll(s, "__", "_")`: non-overlapping matches
replaced left to right. -/
def replaceDoubleUnderscore : List Char → List Char
  | c :: d :: rest =>
    if c = und ∧ d = und then und :: replaceDoubleUnderscore rest
    else c :: replaceDoubleUnderscore (d :: rest)
  | l => l

/-- Each pass shortens the list or keeps its length. -/
theorem rdu_length_le : ∀ l : List Char,
    (replaceDoubleUnderscore l).length ≤ l.length
  | [] => by simp [replaceDoubleUnderscore]
  | [c] => by simp [replaceDoubleUnderscore]
  | c :: d :: rest => by
    by_cases h : c = und ∧ d = und
    · have ih := rdu_length_le rest
      simp [replaceDoubleUnderscore, h]
      omega
    · have ih := rdu_length_le (d :: rest)
      simp only [replaceDoubleUnderscore, if_neg h, List.length_cons] at ih ⊢
      omega

/-- A pass over a list that still holds a double underscore strictly
shortens it. -/
theorem rdu_length_lt : ∀ l : List Char,
    hasDoubleUnderscore l = true →
    (replaceDoubleUnderscore l).length < l.length
  | c :: d :: rest, h => by
    by_cases hcd : c = und ∧ d = und
    · have ih := rdu_length_le rest
      simp [replaceDoubleUnderscore, hcd]
      omega
    · have hdu : hasDoubleUnderscore (d :: rest) = true := by
        simp only [hasDoubleUnderscore, Bool.or_eq_true, Bool.and_eq_true,
          decide_eq_true_eq] at h
        rcases h with ⟨h1, h2⟩ | h
        · exact absurd ⟨h1, h2⟩ hcd
        · exact h
      have ih := rdu_length_lt (d :: rest) hdu
      simp only [replaceDoubleUnderscore, if_neg hcd, List.length_cons] at ih ⊢
      omega

/-- The collapse loop of `sanitizeFilename` (scan.go lines 405-407): apply
the pass while a double underscore remains. -/
def collapseUnderscores (l : List Char) : List Char :=
  if h : hasDoubleUnderscore l = true then
    collapseUnderscores (replaceDoubleUnderscore l)
  else l
termination_by l.length
decreasing_by exact rdu_length_lt l h

/-- `c == und` as the trim predicate of `strings.Trim(s, "_")`. -/
def isUnderscore (c : Char) : Bool := c = und

/-- `strings.Trim(s, "_")`: drop leading and trailing underscores. -/
def trimUnderscores (l : List Char) : List Char :=
  (((l.dropWhile isUnderscore).reverse).dropWhile isUnderscore).reverse

/-- `sanitizeFilename` (scan.go lines 376-418): replace unsafe characters,
collapse double underscores, trim underscores, and default when empty. -/
def sanitizeFilename (imageName : String) : String :=
  let replaced := replaceUnsafe imageName.data
  let collapsed := collapseUnderscores replaced
  let trimmed := trimUnderscores collapsed
  if trimmed = [] then "unknown_image" else String.mk trimmed

/-- Collapse every run of consecutive underscores to a single underscore,
written directly as the design document describes it. -/
def collapseRuns : List Char → List Char
  | [] => []
  | [c] => [c]
  | c :: d :: rest =>
    if c = und ∧ d = und then collapseRuns (d :: rest)
    else c :: collapseRuns (d :: rest)

/-- Reference sanitizer, following the design document word for word:
replace each unsafe character with an underscore, collapse runs, trim, and
substitute the fixed default when empty. -/
def sanitizeFilenameSpec (imageName : String) : String :=
  let replaced := imageName.data.map (fun c => if c ∈ unsafeChars then und else c)
  let collapsed := collapseRuns replaced
  let trimmed := trimUnderscores collapsed
  if trimmed = [] then "unknown_image" else String.mk trimmed

/-- Outcome environment for one image: `scanOCIImage` either succeeds
(`none`) or yields the error it returns for that descriptor (`some`).  This
models isolation failures and external scanner failures alike. -/
def ScanEnv : Type := Descriptor → Option String

/-- The error-collecting loop of `scanOCIImages` (scan.go lines 187-193):
every descriptor is visited in order and each non-nil error is appended. -/
def scanImagesLoop (scanOne : ScanEnv) (ms : List Descriptor) : List String :=
  ms.foldl
    (fun errs d =>
      match scanOne d with
      | some e => errs ++ [e]
      | none => errs)
    []

/-- The invocation trace of the loop: one `scanOCIImage` call per
descriptor, paired with its outcome, in iteration order. -/
def scanTrace (scanOne : ScanEnv) : List Descriptor → List (Descriptor × Option String)
  | [] => []
  | d :: rest => (d, scanOne d) :: scanTrace scanOne rest

/-- Result of loading `index.json` before the loop runs (scan.go lines
158-176): the file may be absent, unreadable, unparsable, or an index. -/
inductive LoadResult where
  | notFound (dir : String)
  | readError (msg : String)
  | parseError (msg : String)
  | ok (idx : Index)

/-- `scanOCIImages` (scan.go lines 156-196): a load failure returns the one
corresponding error before any image is visited; an empty manifest list
returns no errors; otherwise the loop collects the per-image errors. -/
def scanOCIImagesModel (load : LoadResult) (scanOne : ScanEnv) : List String :=
  match load with
  | .notFound dir => ["index.json not found in " ++ dir]
  | .readError msg => ["reading index.json: " ++ msg]
  | .parseError msg => ["parsing index.json: " ++ msg]
  | .ok idx =>
    if idx.manifests.length = 0 then []
    else scanImagesLoop scanOne idx.manifests

/-- The `scanOCIImage` invocations a run performs: none on a load failure
or an empty index, the full trace otherwise. -/
def attemptedImages (load : LoadResult) (scanOne : ScanEnv) :
    List (Descriptor × Option String) :=
  match load with
  | .ok idx =>
    if idx.manifests.length = 0 then []
    else scanTrace scanOne idx.manifests
  | _ => []

/-- `errorsToString` (scan.go lines 420-431): join the collected error
messages with a semicolon separator. -/
def errorsToString : List String → String
  | [] => ""
  | [e] => e
  | e :: rest => e ++ "; " ++ errorsToString rest

/-- The aggregation step of `scan` (scan.go lines 149-153): a non-empty
error list becomes the single combined error, otherwise the run succeeds. -/
def scanRunResult (load : LoadResult) (scanOne : ScanEnv) : Option String :=
  let errors := scanOCIImagesModel load scanOne
  if errors.length ≠ 0 then
    some ("error scanning images: " ++ errorsToString errors)
  else none

/-- A manifest media type used by the concrete examples below. -/
def ociManifestMediaType : String := "application/vnd.oci.image.manifest.v1+json"

/-- Example descriptor with a well-formed sha256 digest and no name
annotations. -/
def wdC4 : Descriptor :=
  { mediaType := ociManifestMediaType
  , digest := "sha256:9f86d081884c7d659a2feaa0c55ad015a3bf4f1b2b0b822cd15d6c15b0f00a08"
  , size := 1024
  , annotations := none }

/-- Example combined index whose schema version is not 2. -/
def cexIndexC1 : Index := { schemaVersion := 3, manifests := [wdC4] }

/-- Descriptor with no annotations whose digest is longer than 20
characters, holds a separator, and has only 3 characters after it. -/
def cexDescriptorC3 : Descriptor :=
  { mediaType := ociManifestMediaType
  , digest := "aaaaaaaaaaaaaaaaaaaa:bcd"
  , size := 7
  , annotations := none }

/-- Descriptor with an empty annotations map whose digest has exactly 15
characters after the separator. -/
def panicDescriptor : Descriptor :=
  { mediaType := ociManifestMediaType
  , digest := "aaaaaaaaaaaaaaaaaaaaa:0123456789abcde"
  , size := 9
  , annotations := some [] }

/-- Descriptor carrying both name annotations. -/
def wdC3 : Descriptor :=
  { mediaType := ociManifestMediaType
  , digest := "sha256:abc"
  , size := 11
  , annotations := some
      [(refNameKey, "nginx:latest"), (baseNameKey, "docker.io/library/nginx")] }

/-- First descriptor of the three-image example run. -/
def wd1 : Descriptor :=
  { mediaType := ociManifestMediaType
  , digest := "sha256:1111111111111111111111111111111111111111111111111111111111111111"
  , size := 1
  , annotations := some [(refNameKey, "img1")] }

/-- Second descriptor of the three-image example run. -/
def wd2 : Descriptor :=
  { mediaType := ociManifestMediaType
  , digest := "sha256:2222222222222222222222222222222222222222222222222222222222222222"
  , size := 2
  , annotations := some [(refNameKey, "img2")] }

/-- Third descriptor of the three-image example run. -/
def wd3 : Descriptor :=
  { mediaType := ociManifestMediaType
  , digest := "sha256:3333333333333333333333333333333333333333333333333333333333333333"
  , size := 3
  , annotations := some [(refNameKey, "img3")] }

/-- Combined index of the three-image example run. -/
def wIdx : Index := { schemaVersion := 2, manifests := [wd1, wd2, wd3] }

/-- Environment for the example run: scanning the second image fails, the
others succeed. -/
def wScanEnv : ScanEnv := fun d =>
  if d = wd2 then some "Trivy scan failed for image img2: exit status 1"
  else none

/-- A combined index with no manifests. -/
def emptyIdx : Index := { schemaVersion := 2, manifests := [] }

/-- The replacer agrees with membership in the fixed unsafe set. -/
theorem applyReplacer_eq (c : Char) :
    applyReplacer c = if c ∈ unsafeChars then und else c := by
  simp only [unsafeChars, List.mem_cons, List.not_mem_nil, or_false]
  by_cases h : c = Char.ofNat 47 ∨ c = Char.ofNat 58 ∨ c = Char.ofNat 32 ∨
      c = Char.ofNat 46 ∨ c = Char.ofNat 44 ∨ c = Char.ofNat 64 ∨
      c = Char.ofNat 38 ∨ c = Char.ofNat 61 ∨ c = Char.ofNat 63 ∨
      c = Char.ofNat 35 ∨ c = Char.ofNat 37 ∨ c = Char.ofNat 42 ∨
      c = Char.ofNat 34 ∨ c = Char.ofNat 39 ∨ c = Char.ofNat 96 ∨
      c = Char.ofNat 60 ∨ c = Char.ofNat 62 ∨ c = Char.ofNat 124 ∨
      c = Char.ofNat 92 ∨ c = Char.ofNat 33
  · rw [if_pos h]
    rcases h with rfl | rfl | rfl | rfl | rfl | rfl | rfl | rfl | rfl | rfl |
      rfl | rfl | rfl | rfl | rfl | rfl | rfl | rfl | rfl | rfl <;> decide
  · rw [if_neg h]
    push_neg at h
    obtain ⟨h1, h2, h3, h4, h5, h6, h7, h8, h9, h10,
      h11, h12, h13, h14, h15, h16, h17, h18, h19, h20⟩ := h
    simp [applyReplacer, h1, h2, h3, h4, h5, h6, h7, h8, h9, h10,
      h11, h12, h13, h14, h15, h16, h17, h18, h19, h20]

/-- The replacer fixes its own output. -/
theorem applyReplacer_idem (c : Char) :
    applyReplacer (applyReplacer c) = applyReplacer c := by
  rw [applyReplacer_eq c]
  by_cases h : c ∈ unsafeChars
  · rw [if_pos h]; decide
  · rw [if_neg h, applyReplacer_eq c, if_neg h]

/-- A double underscore placed anywhere makes the test true. -/
theorem hasDU_append (a b : List Char) :
    hasDoubleUnderscore (a ++ und :: und :: b) = true := by
  induction a with
  | nil => simp [hasDoubleUnderscore]
  | cons x a ih =>
    cases a with
    | nil => simp_all [hasDoubleUnderscore]
    | cons y a2 => simp_all [hasDoubleUnderscore]

/-- A true double-underscore test produces an explicit split. -/
theorem hasDU_exists : ∀ l : List Char, hasDoubleUnderscore l = true →
    ∃ a b, l = a ++ und :: und :: b
  | [], h => by simp [hasDoubleUnderscore] at h
  | [c], h => by simp [hasDoubleUnderscore] at h
  | c :: d :: rest, h => by
    simp only [hasDoubleUnderscore, Bool.or_eq_true, Bool.and_eq_true,
      decide_eq_true_eq] at h
    rcases h with ⟨rfl, rfl⟩ | h
    · exact ⟨[], rest, rfl⟩
    · obtain ⟨a, b, hab⟩ := hasDU_exists (d :: rest) h
      exact ⟨c :: a, b, by simp [hab]⟩

/-- A double underscore in a contiguous part is one in the whole list. -/
theorem hasDU_of_parts {t l : List Char} (u v : List Char)
    (huv : l = u ++ t ++ v) (ht : hasDoubleUnderscore t = true) :
    hasDoubleUnderscore l = true := by
  obtain ⟨a, b, rfl⟩ := hasDU_exists t ht
  subst huv
  have h := hasDU_append (u ++ a) (b ++ v)
  simpa [List.append_assoc] using h

/-- A contiguous part of a list without double underscores has none. -/
theorem hasDU_parts_false {t l : List Char} (u v : List Char)
    (huv : l = u ++ t ++ v) (hl : hasDoubleUnderscore l = false) :
    hasDoubleUnderscore t = false := by
  cases h : hasDoubleUnderscore t with
  | false => rfl
  | true => rw [hasDU_of_parts u v huv h] at hl; cases hl

/-- The collapse loop stops exactly when no double underscore remains. -/
theorem hasDU_collapse (l : List Char) :
    hasDoubleUnderscore (collapseUnderscores l) = false := by
  rw [collapseUnderscores]
  split_ifs with h
  · exact hasDU_collapse (replaceDoubleUnderscore l)
  · simpa using h
termination_by l.length
decreasing_by exact rdu_length_lt l h

/-- Run collapsing skips past a head that is not an underscore. -/
theorem collapseRuns_cons_ne (c : Char) (hc : ¬ c = und) :
    ∀ X : List Char, collapseRuns (c :: X) = c :: collapseRuns X
  | [] => by simp [collapseRuns]
  | x :: r => by
    have hne : ¬ (c = und ∧ x = und) := fun hp => hc hp.1
    simp [collapseRuns, hne]

/-- Run collapsing merges a leading double underscore. -/
theorem collapseRuns_uu (r : List Char) :
    collapseRuns (und :: und :: r) = collapseRuns (und :: r) := by
  simp [collapseRuns]

/-- Run collapsing keeps the head of a pair that is not two underscores. -/
theorem collapseRuns_cons_cons_ne (a b : Char) (X : List Char)
    (h : ¬ (a = und ∧ b = und)) :
    collapseRuns (a :: b :: X) = a :: collapseRuns (b :: X) := by
  rw [collapseRuns, if_neg h]

/-- A list without double underscores is already run-collapsed. -/
theorem collapseRuns_of_noDU : ∀ l : List Char,
    hasDoubleUnderscore l = false → collapseRuns l = l
  | [], _ => rfl
  | [_], _ => rfl
  | c :: d :: rest, h => by
    simp only [hasDoubleUnderscore, Bool.or_eq_false_iff, Bool.and_eq_false_iff,
      decide_eq_false_iff_not] at h
    have hne : ¬ (c = und ∧ d = und) := by
      rcases h.1 with h1 | h1 <;> exact fun hp => h1 (by simp [hp.1, hp.2])
    rw [collapseRuns, if_neg hne, collapseRuns_of_noDU (d :: rest) h.2]

/-- One replacement pass does not change the run-collapsed form, with or
without a leading underscore added. -/
theorem collapseRuns_rdu : ∀ l : List Char,
    collapseRuns (replaceDoubleUnderscore l) = collapseRuns l ∧
    collapseRuns (und :: replaceDoubleUnderscore l) = collapseRuns (und :: l)
  | [] => ⟨rfl, rfl⟩
  | [_] => ⟨rfl, rfl⟩
  | c :: d :: rest => by
    by_cases hcd : c = und ∧ d = und
    · obtain ⟨rfl, rfl⟩ := hcd
      have ih := collapseRuns_rdu rest
      have hstep : replaceDoubleUnderscore (und :: und :: rest) =
          und :: replaceDoubleUnderscore rest := by
        simp [replaceDoubleUnderscore]
      constructor
      · rw [hstep, ih.2, collapseRuns_uu]
      · rw [hstep, collapseRuns_uu, ih.2, collapseRuns_uu, collapseRuns_uu]
    · have hstep : replaceDoubleUnderscore (c :: d :: rest) =
          c :: replaceDoubleUnderscore (d :: rest) := by
        simp [replaceDoubleUnderscore, hcd]
      by_cases hc : c = und
      · subst hc
        have ih := collapseRuns_rdu (d :: rest)
        constructor
        · rw [hstep]; exact ih.2
        · rw [hstep, collapseRuns_uu, collapseRuns_uu]; exact ih.2
      · have ih := collapseRuns_rdu (d :: rest)
        have huc : ¬ (und = und ∧ c = und) := fun hp => hc hp.2
        constructor
        · rw [hstep, collapseRuns_cons_ne c hc, collapseRuns_cons_ne c hc, ih.1]
        · rw [hstep, collapseRuns_cons_cons_ne und c _ huc,
            collapseRuns_cons_cons_ne und c _ huc,
            collapseRuns_cons_ne c hc, collapseRuns_cons_ne c hc, ih.1]

/-- The collapse loop computes exactly the run-collapsed form. -/
theorem collapse_eq_collapseRuns (l : List Char) :
    collapseUnderscores l = collapseRuns l := by
  rw [collapseUnderscores]
  split_ifs with h
  · rw [collapse_eq_collapseRuns (replaceDoubleUnderscore l), (collapseRuns_rdu l).1]
  · rw [collapseRuns_of_noDU l (by simpa using h)]
termination_by l.length
decreasing_by exact rdu_length_lt l h

/-- Run collapsing only removes characters. -/
theorem mem_collapseRuns : ∀ (l : List Char) (c : Char),
    c ∈ collapseRuns l → c ∈ l
  | [], c, h => by simpa [collapseRuns] using h
  | [x], c, h => by simpa [collapseRuns] using h
  | x :: d :: rest, c, h => by
    by_cases hcd : x = und ∧ d = und
    · rw [collapseRuns, if_pos hcd] at h
      exact List.mem_cons_of_mem x (mem_collapseRuns (d :: rest) c h)
    · rw [collapseRuns, if_neg hcd, List.mem_cons] at h
      rcases h with rfl | h
      · exact List.mem_cons_self c _
      · exact List.mem_cons_of_mem x (mem_collapseRuns (d :: rest) c h)

/-- The dropped part of `dropWhile` is an explicit leading part. -/
theorem dropWhile_parts (p : Char → Bool) (l : List Char) :
    ∃ u, l = u ++ l.dropWhile p :=
  ⟨l.takeWhile p, (List.takeWhile_append_dropWhile p l).symm⟩

/-- `dropWhile` needs only one pass. -/
theorem dropWhile_idem (p : Char → Bool) : ∀ l : List Char,
    List.dropWhile p (List.dropWhile p l) = List.dropWhile p l
  | [] => rfl
  | c :: r => by
    by_cases h : p c = true
    · rw [List.dropWhile_cons, if_pos h]
      exact dropWhile_idem p r
    · rw [List.dropWhile_cons, if_neg h, List.dropWhile_cons, if_neg h]

/-- Trimming keeps a contiguous middle part of the list. -/
theorem trimUnderscores_parts (l : List Char) :
    ∃ u v, l = u ++ trimUnderscores l ++ v := by
  obtain ⟨u, hu⟩ := dropWhile_parts isUnderscore l
  obtain ⟨w, hw⟩ := dropWhile_parts isUnderscore (l.dropWhile isUnderscore).reverse
  refine ⟨u, w.reverse, ?_⟩
  have hA : l.dropWhile isUnderscore =
      trimUnderscores l ++ w.reverse := by
    have h2 := congrArg List.reverse hw
    simpa [List.reverse_append, trimUnderscores] using h2
  calc l = u ++ List.dropWhile isUnderscore l := hu
    _ = u ++ (trimUnderscores l ++ w.reverse) := by rw [hA]
    _ = u ++ trimUnderscores l ++ w.reverse := by rw [List.append_assoc]

/-- A character surviving the trim was in the original list. -/
theorem mem_trimUnderscores (l : List Char) (c : Char)
    (h : c ∈ trimUnderscores l) : c ∈ l := by
  obtain ⟨u, v, huv⟩ := trimUnderscores_parts l
  rw [huv]
  simp only [List.mem_append]
  exact Or.inl (Or.inr h)

/-- Trimming needs only one pass. -/
theorem trimUnderscores_idem (l : List Char) :
    trimUnderscores (trimUnderscores l) = trimUnderscores l := by
  have h1 : List.dropWhile isUnderscore (trimUnderscores l) = trimUnderscores l := by
    cases hrev : trimUnderscores l with
    | nil => rfl
    | cons x xs =>
      have hx : (l.dropWhile isUnderscore).head? = some x := by
        obtain ⟨w, hw⟩ := dropWhile_parts isUnderscore
          (l.dropWhile isUnderscore).reverse
        have hA : l.dropWhile isUnderscore = trimUnderscores l ++ w.reverse := by
          have h2 := congrArg List.reverse hw
          simpa [List.reverse_append, trimUnderscores] using h2
        rw [hA, hrev]
        simp
      have hnot := List.head?_dropWhile_not isUnderscore l
      rw [hx] at hnot
      have hnot2 : isUnderscore x = false := hnot
      rw [List.dropWhile_cons, if_neg (by simp [hnot2])]
  have h3 : (trimUnderscores l).reverse =
      List.dropWhile isUnderscore (l.dropWhile isUnderscore).reverse := by
    show (((l.dropWhile isUnderscore).reverse.dropWhile
      isUnderscore).reverse).reverse = _
    rw [List.reverse_reverse]
  show ((List.dropWhile isUnderscore (trimUnderscores l)).reverse.dropWhile
      isUnderscore).reverse = trimUnderscores l
  rw [h1, h3, dropWhile_idem]
  rfl

/-- A pointwise-fixed map is the identity. -/
theorem map_id_of_fixed {f : Char → Char} : ∀ l : List Char,
    (∀ c ∈ l, f c = c) → l.map f = l
  | [], _ => rfl
  | c :: r, h => by
    rw [List.map_cons, h c (List.mem_cons_self c r),
      map_id_of_fixed r (fun x hx => h x (List.mem_cons_of_mem c hx))]

/-- `sanitizeFilename` with its let chain spelled out. -/
theorem sanitizeFilename_def (s : String) :
    sanitizeFilename s =
      (if trimUnderscores (collapseUnderscores (replaceUnsafe s.data)) = []
       then "unknown_image"
       else String.mk (trimUnderscores (collapseUnderscores (replaceUnsafe s.data)))) := rfl

/-- A string fixed by all three phases is fixed by the sanitizer. -/
theorem sanitize_fixed (s : String)
    (h1 : replaceUnsafe s.data = s.data)
    (h2 : hasDoubleUnderscore s.data = false)
    (h3 : trimUnderscores s.data = s.data)
    (h4 : s.data ≠ []) :
    sanitizeFilename s = s := by
  rw [sanitizeFilename_def, h1, collapse_eq_collapseRuns,
    collapseRuns_of_noDU _ h2, h3, if_neg h4]

/-- The error-collecting loop gathers exactly the failing outcomes, in
iteration order. -/
theorem scanImagesLoop_eq_filterMap (scanOne : ScanEnv) (ms : List Descriptor) :
    scanImagesLoop scanOne ms = ms.filterMap scanOne := by
  have hgen : ∀ (ms : List Descriptor) (acc : List String),
      ms.foldl
        (fun errs d =>
          match scanOne d with
          | some e => errs ++ [e]
          | none => errs) acc = acc ++ ms.filterMap scanOne := by
    intro ms
    induction ms with
    | nil => intro acc; simp
    | cons d rest ih =>
      intro acc
      cases h : scanOne d with
      | some e => simp [List.foldl_cons, h, ih, List.filterMap_cons]
      | none => simp [List.foldl_cons, h, ih, List.filterMap_cons]
  simpa [scanImagesLoop] using hgen ms []

/-- The invocation trace pairs each descriptor with its own outcome. -/
theorem scanTrace_eq_map (scanOne : ScanEnv) : ∀ ms : List Descriptor,
    scanTrace scanOne ms = ms.map (fun d => (d, scanOne d))
  | [] => rfl
  | d :: rest => by
    rw [scanTrace, scanTrace_eq_map scanOne rest, List.map_cons]

/-- The descriptors of the trace are the manifest list itself, in order. -/
theorem scanTrace_fst (scanOne : ScanEnv) (ms : List Descriptor) :
    (scanTrace scanOne ms).map Prod.fst = ms := by
  rw [scanTrace_eq_map]
  rw [List.map_map]
  show List.map id ms = ms
  exact List.map_id ms

/-- Every collected error message appears inside the joined message. -/
theorem errorsToString_parts : ∀ errs : List String, ∀ e ∈ errs,
    ∃ u v, (errorsToString errs).data = u ++ e.data ++ v
  | [], e, h => absurd h (List.not_mem_nil e)
  | [x], e, h => by
    have hx : e = x := by simpa using h
    exact ⟨[], [], by simp [errorsToString, hx]⟩
  | x :: y :: rest, e, h => by
    rcases List.mem_cons.mp h with rfl | h2
    · refine ⟨[], ("; " ++ errorsToString (y :: rest)).data, ?_⟩
      simp [errorsToString, String.data_append]
    · obtain ⟨u, v, huv⟩ := errorsToString_parts (y :: rest) e h2
      refine ⟨(x ++ "; ").data ++ u, v, ?_⟩
      simp [errorsToString, String.data_append, huv, List.append_assoc]

/-- `scanRunResult` with its let chain spelled out. -/
theorem scanRunResult_def (load : LoadResult) (scanOne : ScanEnv) :
    scanRunResult load scanOne =
      (if (scanOCIImagesModel load scanOne).length ≠ 0 then
        some ("error scanning images: " ++
          errorsToString (scanOCIImagesModel load scanOne))
      else none) := rfl

/-- The digest fallback slices the second split field when it is long
enough. -/
theorem digestFallback_take {s : String} {p0 p1 : List Char}
    {rest : List (List Char)} (h20 : s.length > 20)
    (hsp : goSplitChar ':' s.data = p0 :: p1 :: rest) (h16 : 16 ≤ p1.length) :
    digestFallback s = some (String.mk (p1.take 16)) := by
  unfold digestFallback
  rw [if_pos h20, hsp]
  show (if 16 ≤ p1.length then some (String.mk (p1.take 16)) else none) =
    some (String.mk (p1.take 16))
  rw [if_pos h16]

/-- The digest fallback returns the raw digest when it is short or has no
separator. -/
theorem digestFallback_raw {s : String}
    (h : ¬ (s.length > 20 ∧ 1 < (goSplitChar ':' s.data).length)) :
    digestFallback s = some s := by
  unfold digestFallback
  by_cases h20 : s.length > 20
  · rw [if_pos h20]
    cases hsp : goSplitChar ':' s.data with
    | nil => rfl
    | cons p0 t =>
      cases t with
      | nil => rfl
      | cons p1 rest =>
        exact absurd ⟨h20, by rw [hsp]; simp⟩ h
  · rw [if_neg h20]

/-- The digest fallback cannot fail when every long split tail carries at
least 16 characters. -/
theorem digestFallback_total {s : String}
    (h : ∀ p0 p1 rest, s.length > 20 →
      goSplitChar ':' s.data = p0 :: p1 :: rest → 16 ≤ p1.length) :
    (digestFallback s).isSome = true := by
  unfold digestFallback
  by_cases h20 : s.length > 20
  · rw [if_pos h20]
    cases hsp : goSplitChar ':' s.data with
    | nil => rfl
    | cons p0 t =>
      cases t with
      | nil => rfl
      | cons p1 rest =>
        show (if 16 ≤ p1.length then some (String.mk (p1.take 16))
          else none).isSome = true
        rw [if_pos (h p0 p1 rest h20 hsp)]
        rfl
  · rw [if_neg h20]
    rfl

/-- The resolver reduces to the digest fallback when neither name
annotation is present. -/
theorem getImageName_fallback (d : Descriptor)
    (h1 : annotationLookup d refNameKey = none)
    (h2 : annotationLookup d baseNameKey = none) :
    getImageNameFromDescriptor d = digestFallback d.digest := by
  obtain ⟨mt, dg, sz, ann⟩ := d
  cases ann with
  | none => rfl
  | some ann =>
    unfold annotationLookup at h1 h2
    simp only at h1 h2
    unfold getImageNameFromDescriptor
    simp only
    rw [h1, h2]

/-- C1 counterexample: for the concrete combined index `cexIndexC1` with
schema version 3, the single-entry index derived for its descriptor carries
schema version 2, not the source value — the schema-version marker is not
copied verbatim from the combined index. -/
theorem schemaVersion_not_copied_cex :
    cexIndexC1.manifests = [wdC4] ∧
    cexIndexC1.schemaVersion = 3 ∧
    (tempIndexFor wdC4).schemaVersion = 2 ∧
    (tempIndexFor wdC4).schemaVersion ≠ cexIndexC1.schemaVersion := by
  refine ⟨rfl, rfl, rfl, ?_⟩
  decide

/-- C1 (amended): the single-entry index written into each isolated layout
always carries the constant schema version 2, for every descriptor,
independent of the source combined index's schema-version value; it
coincides with the source value exactly when that value is 2. -/
theorem derived_index_schemaVersion_constant (d : Descriptor) :
    (tempIndexFor d).schemaVersion = 2 := rfl

/-- C7: for every source descriptor, the derived single-entry index holds
exactly one manifest entry, and that entry's digest, media type, size and
annotations are identical to the source descriptor's. -/
theorem isolated_index_single_entry (d : Descriptor) :
    (tempIndexFor d).manifests.length = 1 ∧
    (tempIndexFor d).manifests = [d] ∧
    ∀ m ∈ (tempIndexFor d).manifests,
      m.digest = d.digest ∧ m.mediaType = d.mediaType ∧
      m.size = d.size ∧ m.annotations = d.annotations := by
  refine ⟨rfl, rfl, ?_⟩
  intro m hm
  have hmd : m = d := by simpa [tempIndexFor] using hm
  simp [hmd]

/-- Witness for C7 at the concrete descriptor `wd1`. -/
theorem isolated_index_single_entry_witness :
    wd1 ∈ (tempIndexFor wd1).manifests ∧
    (wd1.digest = wd1.digest ∧ wd1.mediaType = wd1.mediaType ∧
     wd1.size = wd1.size ∧ wd1.annotations = wd1.annotations) :=
  ⟨by decide, (isolated_index_single_entry wd1).2.2 wd1 (by decide)⟩

/-- C3 counterexample: on the concrete descriptor `cexDescriptorC3` — no
annotations, digest longer than 20 characters, containing a separator, but
with only 3 characters after it — the resolver returns no name at all (the
Go slice panics), while the claim promises a returned value. -/
theorem name_resolver_contract_cex :
    cexDescriptorC3.annotations = none ∧
    cexDescriptorC3.digest.length > 20 ∧
    1 < (goSplitChar ':' cexDescriptorC3.digest.data).length ∧
    getImageNameFromDescriptor cexDescriptorC3 = none := by
  refine ⟨rfl, by decide, by decide, by decide⟩

/-- C3 (amended): the resolver returns, first match wins: the ref.name
annotation; else the base.name annotation; else, if the digest is longer
than 20 characters and splits at a separator with at least 16 characters in
the field after the first separator, the first 16 characters of that field;
else, when the digest is short or has no separator, the raw digest; in the
remaining case (long digest, separator, short field) the resolver panics
and returns nothing. -/
theorem name_resolver_precedence_amended (d : Descriptor) :
    (∀ n, annotationLookup d refNameKey = some n →
      getImageNameFromDescriptor d = some n) ∧
    (∀ n, annotationLookup d refNameKey = none →
      annotationLookup d baseNameKey = some n →
      getImageNameFromDescriptor d = some n) ∧
    (annotationLookup d refNameKey = none →
      annotationLookup d baseNameKey = none →
      (∀ p0 p1 rest, d.digest.length > 20 →
        goSplitChar ':' d.digest.data = p0 :: p1 :: rest → 16 ≤ p1.length →
        getImageNameFromDescriptor d = some (String.mk (p1.take 16))) ∧
      (¬ (d.digest.length > 20 ∧ 1 < (goSplitChar ':' d.digest.data).length) →
        getImageNameFromDescriptor d = some d.digest)) := by
  refine ⟨?_, ?_, fun h1 h2 => ⟨?_, ?_⟩⟩
  · intro n hn
    obtain ⟨mt, dg, sz, ann⟩ := d
    cases ann with
    | none => cases hn
    | some ann =>
      unfold annotationLookup at hn
      simp only at hn
      unfold getImageNameFromDescriptor
      simp only
      rw [hn]
  · intro n h1 h2
    obtain ⟨mt, dg, sz, ann⟩ := d
    cases ann with
    | none => cases h2
    | some ann =>
      unfold annotationLookup at h1 h2
      simp only at h1 h2
      unfold getImageNameFromDescriptor
      simp only
      rw [h1, h2]
  · intro p0 p1 rest h20 hsp h16
    rw [getImageName_fallback d h1 h2]
    exact digestFallback_take h20 hsp h16
  · intro hng
    rw [getImageName_fallback d h1 h2]
    exact digestFallback_raw hng

/-- Witness for C3 (amended) at the concrete descriptor `wdC3`, whose
ref.name annotation wins over its base.name annotation. -/
theorem name_resolver_precedence_witness :
    getImageNameFromDescriptor wdC3 = some "nginx:latest" :=
  (name_resolver_precedence_amended wdC3).1 "nginx:latest" (by decide)

/-- C4: on a descriptor without name annotations whose digest is longer
than 20 characters, has a separator, and has fewer than 16 characters after
the first separator, the slice `parts[1][:16]` is out of bounds and the
resolver produces no name (a Go panic); and name resolution is total under
the precondition that every long, separated digest carries at least 16
characters in the field after the first separator. -/
theorem name_resolver_partiality :
    (panicDescriptor.digest.length > 20 ∧
     1 < (goSplitChar ':' panicDescriptor.digest.data).length ∧
     getImageNameFromDescriptor panicDescriptor = none) ∧
    (∀ d : Descriptor,
      (∀ p0 p1 rest, d.digest.length > 20 →
        goSplitChar ':' d.digest.data = p0 :: p1 :: rest → 16 ≤ p1.length) →
      (getImageNameFromDescriptor d).isSome = true) := by
  constructor
  · exact ⟨by decide, by decide, by decide⟩
  · intro d h
    obtain ⟨mt, dg, sz, ann⟩ := d
    cases ann with
    | none => exact digestFallback_total h
    | some ann =>
      unfold getImageNameFromDescriptor
      simp only
      cases lookupGo refNameKey ann with
      | some n => rfl
      | none =>
        cases lookupGo baseNameKey ann with
        | some n => rfl
        | none => exact digestFallback_total h

/-- Witness for C4's totality part at the well-formed descriptor `wdC4`. -/
theorem name_resolver_partiality_witness :
    (getImageNameFromDescriptor wdC4).isSome = true := by
  apply name_resolver_partiality.2 wdC4
  intro p0 p1 rest h20 hsp
  have hconc : goSplitChar ':' wdC4.digest.data =
      ["sha256".data,
       "9f86d081884c7d659a2feaa0c55ad015a3bf4f1b2b0b822cd15d6c15b0f00a08".data] := by
    decide
  rw [hconc] at hsp
  injection hsp with ha hb
  injection hb with hb hc
  rw [← hb]
  decide

/-- C5: the sanitizer is idempotent — re-sanitizing an already-sanitized
name is a no-op, for every string. -/
theorem sanitizeFilename_idempotent (x : String) :
    sanitizeFilename (sanitizeFilename x) = sanitizeFilename x := by
  rw [sanitizeFilename_def x]
  by_cases h : trimUnderscores (collapseUnderscores (replaceUnsafe x.data)) = []
  · rw [if_pos h]
    exact sanitize_fixed _ (by decide) (by decide) (by decide) (by decide)
  · rw [if_neg h]
    apply sanitize_fixed
    · show replaceUnsafe (trimUnderscores (collapseUnderscores
        (replaceUnsafe x.data))) = _
      apply map_id_of_fixed
      intro c hc
      have hc2 : c ∈ collapseUnderscores (replaceUnsafe x.data) :=
        mem_trimUnderscores _ _ hc
      rw [collapse_eq_collapseRuns] at hc2
      have hc3 : c ∈ replaceUnsafe x.data := mem_collapseRuns _ _ hc2
      obtain ⟨c0, _, rfl⟩ := List.mem_map.mp hc3
      exact applyReplacer_idem c0
    · show hasDoubleUnderscore (trimUnderscores (collapseUnderscores
        (replaceUnsafe x.data))) = false
      obtain ⟨u, v, huv⟩ :=
        trimUnderscores_parts (collapseUnderscores (replaceUnsafe x.data))
      exact hasDU_parts_false u v huv (hasDU_collapse _)
    · show trimUnderscores (trimUnderscores (collapseUnderscores
        (replaceUnsafe x.data))) = _
      exact trimUnderscores_idem _
    · simpa using h

/-- C6: the sanitizer equals the reference definition of the design
document — replace each unsafe character with an underscore, collapse runs
of underscores, trim leading and trailing underscores, default to
"unknown_image" when empty — and meets the two documented examples. -/
theorem sanitizeFilename_matches_reference :
    (∀ x, sanitizeFilename x = sanitizeFilenameSpec x) ∧
    sanitizeFilename "" = "unknown_image" ∧
    sanitizeFilename "docker.io/library/nginx:latest" =
      "docker_io_library_nginx_latest" := by
  have hmain : ∀ x, sanitizeFilename x = sanitizeFilenameSpec x := by
    intro x
    have hrepl : replaceUnsafe x.data =
        x.data.map (fun c => if c ∈ unsafeChars then und else c) := by
      unfold replaceUnsafe
      rw [funext applyReplacer_eq]
    rw [sanitizeFilename_def, hrepl, collapse_eq_collapseRuns]
    rfl
  refine ⟨hmain, ?_, ?_⟩
  · rw [hmain]
    decide
  · rw [hmain]
    decide

/-- C2: for every combined index, every descriptor is attempted exactly
once, in order, regardless of per-image failures; the run succeeds exactly
when no per-image error occurred; the collected errors are exactly the
failing outcomes; and on failure the run returns the single combined error
whose message carries every failed image's error. -/
theorem scan_run_attempts_all_and_aggregates (scanOne : ScanEnv) (idx : Index) :
    ((attemptedImages (.ok idx) scanOne).map Prod.fst = idx.manifests) ∧
    (attemptedImages (.ok idx) scanOne =
      idx.manifests.map (fun d => (d, scanOne d))) ∧
    (scanOCIImagesModel (.ok idx) scanOne = idx.manifests.filterMap scanOne) ∧
    (scanRunResult (.ok idx) scanOne = none ↔
      scanOCIImagesModel (.ok idx) scanOne = []) ∧
    (∀ e ∈ scanOCIImagesModel (.ok idx) scanOne,
      scanRunResult (.ok idx) scanOne =
        some ("error scanning images: " ++
          errorsToString (scanOCIImagesModel (.ok idx) scanOne)) ∧
      ∃ u v, (errorsToString (scanOCIImagesModel (.ok idx) scanOne)).data =
        u ++ e.data ++ v) := by
  have hm : scanOCIImagesModel (.ok idx) scanOne =
      idx.manifests.filterMap scanOne := by
    show (if idx.manifests.length = 0 then []
      else scanImagesLoop scanOne idx.manifests) = idx.manifests.filterMap scanOne
    by_cases h0 : idx.manifests.length = 0
    · rw [if_pos h0, List.length_eq_zero.mp h0]
      rfl
    · rw [if_neg h0]
      exact scanImagesLoop_eq_filterMap scanOne idx.manifests
  have ha : attemptedImages (.ok idx) scanOne =
      idx.manifests.map (fun d => (d, scanOne d)) := by
    show (if idx.manifests.length = 0 then []
      else scanTrace scanOne idx.manifests) =
      idx.manifests.map (fun d => (d, scanOne d))
    by_cases h0 : idx.manifests.length = 0
    · rw [if_pos h0, List.length_eq_zero.mp h0]
      rfl
    · rw [if_neg h0]
      exact scanTrace_eq_map scanOne idx.manifests
  refine ⟨?_, ha, hm, ?_, ?_⟩
  · rw [ha, List.map_map]
    show List.map id idx.manifests = idx.manifests
    exact List.map_id idx.manifests
  · rw [scanRunResult_def]
    constructor
    · intro h
      by_cases hl : (scanOCIImagesModel (.ok idx) scanOne).length ≠ 0
      · rw [if_pos hl] at h
        cases h
      · push_neg at hl
        exact List.length_eq_zero.mp hl
    · intro h
      rw [if_neg (by simp [h])]
  · intro e he
    have hne : scanOCIImagesModel (.ok idx) scanOne ≠ [] := by
      intro h0
      rw [h0] at he
      exact absurd he (List.not_mem_nil e)
    have hlen : (scanOCIImagesModel (.ok idx) scanOne).length ≠ 0 := by
      rw [Ne, List.length_eq_zero]
      exact hne
    constructor
    · rw [scanRunResult_def, if_pos hlen]
    · exact errorsToString_parts _ e he

/-- Witness for C2: the documented three-image example in which the second
image fails — all three descriptors are attempted in order, the collected
errors name exactly the second image, and the aggregate error carries its
message. -/
theorem scan_run_attempts_all_witness :
    ((attemptedImages (.ok wIdx) wScanEnv).map Prod.fst = [wd1, wd2, wd3]) ∧
    (scanOCIImagesModel (.ok wIdx) wScanEnv =
      ["Trivy scan failed for image img2: exit status 1"]) ∧
    (scanRunResult (.ok wIdx) wScanEnv =
      some ("error scanning images: " ++
        errorsToString (scanOCIImagesModel (.ok wIdx) wScanEnv))) ∧
    (∃ u v, (errorsToString (scanOCIImagesModel (.ok wIdx) wScanEnv)).data =
      u ++ ("Trivy scan failed for image img2: exit status 1").data ++ v) := by
  have h := scan_run_attempts_all_and_aggregates wScanEnv wIdx
  have hmodel : scanOCIImagesModel (.ok wIdx) wScanEnv =
      ["Trivy scan failed for image img2: exit status 1"] := by
    rw [h.2.2.1]
    decide
  have hmem : "Trivy scan failed for image img2: exit status 1" ∈
      scanOCIImagesModel (.ok wIdx) wScanEnv := by
    rw [hmodel]
    exact List.mem_cons_self _ _
  exact ⟨by rw [h.1]; rfl, hmodel, (h.2.2.2.2 _ hmem).1, (h.2.2.2.2 _ hmem).2⟩

/-- C8: a combined index with an empty manifests array yields a successful
run with zero scan invocations and zero collected errors. -/
theorem empty_index_successful_noop (scanOne : ScanEnv) (idx : Index)
    (h : idx.manifests = []) :
    attemptedImages (.ok idx) scanOne = [] ∧
    scanOCIImagesModel (.ok idx) scanOne = [] ∧
    scanRunResult (.ok idx) scanOne = none := by
  have h0 : idx.manifests.length = 0 := by rw [h]; rfl
  have hmod : scanOCIImagesModel (.ok idx) scanOne = [] := by
    show (if idx.manifests.length = 0 then []
      else scanImagesLoop scanOne idx.manifests) = []
    rw [if_pos h0]
  refine ⟨?_, hmod, ?_⟩
  · show (if idx.manifests.length = 0 then []
      else scanTrace scanOne idx.manifests) = ([] : List (Descriptor × Option String))
    rw [if_pos h0]
  · rw [scanRunResult_def, hmod]
    rfl

/-- Witness for C8 at the concrete empty index. -/
theorem empty_index_successful_noop_witness :
    attemptedImages (.ok emptyIdx) wScanEnv = [] ∧
    scanOCIImagesModel (.ok emptyIdx) wScanEnv = [] ∧
    scanRunResult (.ok emptyIdx) wScanEnv = none :=
  empty_index_successful_noop wScanEnv emptyIdx rfl

/-- C9: an absent index document yields exactly the not-found error, an
unparsable one exactly the parse error, an unreadable one exactly the read
error; every load failure is fatal to the whole run — no image is attempted
and the run returns an error. -/
theorem load_failure_fatal_no_scan :
    (∀ (dir : String) (scanOne : ScanEnv),
      attemptedImages (.notFound dir) scanOne = [] ∧
      scanOCIImagesModel (.notFound dir) scanOne =
        ["index.json not found in " ++ dir] ∧
      scanRunResult (.notFound dir) scanOne =
        some ("error scanning images: " ++ ("index.json not found in " ++ dir))) ∧
    (∀ (msg : String) (scanOne : ScanEnv),
      attemptedImages (.parseError msg) scanOne = [] ∧
      scanOCIImagesModel (.parseError msg) scanOne =
        ["parsing index.json: " ++ msg] ∧
      scanRunResult (.parseError msg) scanOne =
        some ("error scanning images: " ++ ("parsing index.json: " ++ msg))) ∧
    (∀ (msg : String) (scanOne : ScanEnv),
      attemptedImages (.readError msg) scanOne = [] ∧
      scanOCIImagesModel (.readError msg) scanOne =
        ["reading index.json: " ++ msg] ∧
      scanRunResult (.readError msg) scanOne =
        some ("error scanning images: " ++ ("reading index.json: " ++ msg))) ∧
    (∀ (load : LoadResult) (scanOne : ScanEnv),
      (∀ idx : Index, load ≠ .ok idx) →
      attemptedImages load scanOne = [] ∧
      scanRunResult load scanOne ≠ none) := by
  refine ⟨fun dir scanOne => ⟨rfl, rfl, rfl⟩,
    fun msg scanOne => ⟨rfl, rfl, rfl⟩,
    fun msg scanOne => ⟨rfl, rfl, rfl⟩,
    fun load scanOne hne => ?_⟩
  cases load with
  | notFound dir =>
    refine ⟨rfl, ?_⟩
    rw [scanRunResult_def, if_pos
      (show (scanOCIImagesModel (LoadResult.notFound dir) scanOne).length ≠ 0
        from fun hc => Nat.one_ne_zero hc)]
    simp
  | readError msg =>
    refine ⟨rfl, ?_⟩
    rw [scanRunResult_def, if_pos
      (show (scanOCIImagesModel (LoadResult.readError msg) scanOne).length ≠ 0
        from fun hc => Nat.one_ne_zero hc)]
    simp
  | parseError msg =>
    refine ⟨rfl, ?_⟩
    rw [scanRunResult_def, if_pos
      (show (scanOCIImagesModel (LoadResult.parseError msg) scanOne).length ≠ 0
        from fun hc => Nat.one_ne_zero hc)]
    simp
  | ok idx => exact absurd rfl (hne idx)

/-- Witness for C9's fatality part at a concrete missing index. -/
theorem load_failure_fatal_no_scan_witness :
    attemptedImages (.notFound "/tmp/zarf/images") wScanEnv = [] ∧
    scanRunResult (.notFound "/tmp/zarf/images") wScanEnv ≠ none :=
  load_failure_fatal_no_scan.2.2.2 (.notFound "/tmp/zarf/images") wScanEnv
    (fun idx h => LoadResult.noConfusion h)

/-- C10: the loop visits the descriptors strictly one at a time in the
order of the manifests array: the invocation trace lists exactly the
manifests in insertion order, and the recorded errors are the failing
outcomes of that trace in the same order. -/
theorem scan_order_equals_insertion_order (scanOne : ScanEnv)
    (ms : List Descriptor) :
    (scanTrace scanOne ms).map Prod.fst = ms ∧
    scanImagesLoop scanOne ms = (scanTrace scanOne ms).filterMap Prod.snd := by
  refine ⟨scanTrace_fst scanOne ms, ?_⟩
  rw [scanTrace_eq_map, scanImagesLoop_eq_filterMap, List.filterMap_map]
  rfl

end TrivyZarf
